import Mathlib

/-!
Verification development for the `get-books` scraper script.

The script scrapes a paginated book listing, builds one `Book` per listing
anchor, derives a download URL and a file name per book, and downloads each
book to a flat output directory, skipping files that already exist and
deleting the partial file of an interrupted download.

Python strings are embedded as `List Char`; Python `str.replace` (global,
left-to-right, non-overlapping) and `str.strip` are modelled by executable
structural recursions below.  The filesystem is an association list from
full paths to byte contents; HTTP is an oracle from URLs / page numbers to
responses.
-/

/-- Python strings, embedded as lists of characters. -/
abbrev Str := List Char

/-- Downloaded file contents, embedded as lists of byte values. -/
abbrev Bytes := List Nat

/-- Worker for `replaceList`.  The counter holds how many characters of a
just-matched pattern occurrence still have to be consumed without being
re-examined (Python `str.replace` scans left to right and never rescans the
characters of a matched occurrence). -/
def replAux (pat rep : Str) : Nat → Str → Str
  | _, [] => []
  | k + 1, _ :: rest => replAux pat rep k rest
  | 0, c :: rest =>
    if pat.isPrefixOf (c :: rest) then
      rep ++ replAux pat rep (pat.length - 1) rest
    else
      c :: replAux pat rep 0 rest

/-- Python `s.replace(pat, rep)`: replace every non-overlapping occurrence
of `pat` in `s` by `rep`, scanning left to right. -/
def replaceList (pat rep s : Str) : Str := replAux pat rep 0 s

/-- Worker for `countOcc`, with the same skip counter as `replAux`. -/
def countAux (pat : Str) : Nat → Str → Nat
  | _, [] => 0
  | k + 1, _ :: rest => countAux pat k rest
  | 0, c :: rest =>
    if pat.isPrefixOf (c :: rest) then
      1 + countAux pat (pat.length - 1) rest
    else
      countAux pat 0 rest

/-- Number of non-overlapping occurrences of `pat` in `s`, counted by the
same left-to-right scan that `replaceList` performs (Python `s.count(pat)`
for nonempty `pat`). -/
def countOcc (pat s : Str) : Nat := countAux pat 0 s

/-- The characters removed by Python `str.strip()`: exactly those for which
`str.isspace()` holds, namely the code points 0x09-0x0D, 0x1C-0x1F, 0x20,
0x85, 0xA0, 0x1680, 0x2000-0x200A, 0x2028, 0x2029, 0x202F, 0x205F and
0x3000. -/
def isPySpace (c : Char) : Bool :=
  (0x9 ≤ c.toNat && c.toNat ≤ 0xd) || c.toNat = 0x20
    || (0x1c ≤ c.toNat && c.toNat ≤ 0x1f)
    || c.toNat = 0x85 || c.toNat = 0xa0 || c.toNat = 0x1680
    || (0x2000 ≤ c.toNat && c.toNat ≤ 0x200a)
    || c.toNat = 0x2028 || c.toNat = 0x2029 || c.toNat = 0x202f
    || c.toNat = 0x205f || c.toNat = 0x3000

/-- Python `s.strip()`: drop leading and trailing whitespace. -/
def stripList (s : Str) : Str :=
  ((s.dropWhile isPySpace).reverse.dropWhile isPySpace).reverse

/-- `Book.windows_bad_chars` from the source: the raw string of
filesystem-unsafe characters removed from titles. -/
def windows_bad_chars : Str := ['\\', '/', ':', '*', '?', '<', '>', '|']

/-- `Book._clean_title` from the source: first `title.strip()`, then one
`title.replace(c, "")` per bad character, in order. -/
def clean_title (title : Str) : Str :=
  windows_bad_chars.foldl (fun t c => replaceList [c] [] t) (stripList title)

/-- `BASE_URL` from the source (note: no trailing slash). -/
def BASE_URL : Str := ("https://link.springer.com").toList

/-- The marker segment replaced inside a detail-page href. -/
def marker : Str := ("book/").toList

/-- The `Formatter` class: a URL path modifier plus a file extension. -/
structure Formatter where
  url_modifier : Str
  extension : Str
deriving DecidableEq

/-- `Formats.pdf` from the source. -/
def Formats.pdf : Formatter := ⟨("content/pdf/").toList, ("pdf").toList⟩

/-- `Formats.epub` from the source. -/
def Formats.epub : Formatter := ⟨("download/epub/").toList, ("epub").toList⟩

/-- The `Book` class: sanitized title, raw href, chosen formatter. -/
structure Book where
  title : Str
  href : Str
  formatter : Formatter
deriving DecidableEq

/-- `Book.__init__`: the stored title is the cleaned input title; href and
formatter are stored unchanged. -/
def Book.make (title href : Str) (f : Formatter) : Book :=
  ⟨clean_title title, href, f⟩

/-- The `Book.file_name` property: `title + "." + extension`. -/
def Book.file_name (b : Book) : Str :=
  b.title ++ '.' :: b.formatter.extension

/-- The `Book.download_url` property: replace the marker `"book/"` in the
href by the formatter's url modifier (a global `str.replace`), then
concatenate `BASE_URL`, the changed href, `"."` and the extension. -/
def Book.download_url (b : Book) : Str :=
  BASE_URL ++ replaceList marker b.formatter.url_modifier b.href
    ++ '.' :: b.formatter.extension

example : replaceList (("ab").toList) (("X").toList) (("zabab").toList)
    = ("zXX").toList := by decide

example : countOcc marker (("book/xbook/y").toList) = 2 := by decide

example : clean_title (("  a:b  ").toList) = ("ab").toList := by decide

example : clean_title (['\xa0', 'a']) = ['a'] := by decide

example : clean_title (['\x1c', ' ', 'a']) = ['a'] := by decide

example : stripList (['　', 'x', '\x85']) = ['x'] := by decide

example : clean_title (("\\ a").toList) = (" a").toList := by decide

example : (Book.make (("T").toList) (("book/abc123").toList) Formats.pdf).download_url
    = ("https://link.springer.comcontent/pdf/abc123.pdf").toList := by decide

example : (Book.make (("T").toList) (("/book/abc123").toList) Formats.pdf).download_url
    = ("https://link.springer.com/content/pdf/abc123.pdf").toList := by decide

example : (Book.make (("A b").toList) (("/book/1").toList) Formats.pdf).file_name
    = ("A b.pdf").toList := by rfl

/-! ## Filesystem, HTTP and downloader model -/

/-- The local filesystem: an association list from full file paths to file
contents.  `write` keeps at most one entry per path. -/
abbrev FS := List (Str × Bytes)

/-- Contents of the file at path `p`, if it exists. -/
def FS.lookup : FS → Str → Option Bytes
  | [], _ => none
  | (p, b) :: rest, q => if p = q then some b else FS.lookup rest q

/-- Delete the file at path `p` (no-op when absent). -/
def FS.erase (fs : FS) (p : Str) : FS :=
  fs.filter (fun e => decide (e.1 ≠ p))

/-- Create or overwrite the file at path `p` with contents `b`. -/
def FS.write (fs : FS) (p : Str) (b : Bytes) : FS :=
  (p, b) :: FS.erase fs p

/-- `os.path.isfile`: the path names an existing file. -/
def FS.isfile (fs : FS) (p : Str) : Bool :=
  (FS.lookup fs p).isSome

/-- `os.path.join(folder, name)` for a folder with no trailing slash. -/
def os_path_join (folder name : Str) : Str := folder ++ '/' :: name

/-- The `BooksDownloader` class state: output folder and overwrite flag.
(The constructor's `mkdir(exist_ok=True)` is not modelled: the flat `FS`
keys files by full path and has no separate directory objects.) -/
structure BooksDownloader where
  folder : Str
  overwrite : Bool
deriving DecidableEq

/-- Outcome of one `BooksDownloader.get_book` call. -/
inductive GetResult
  | skipped
  | downloaded
  | httpError
deriving DecidableEq

/-- Python exceptions that the script can raise. -/
inductive PyError
  | unboundLocal (name : Str)
  | fileNotFound (path : Str)
  | httpError
deriving DecidableEq

/-- `BooksDownloader.get_book`, with HTTP as an oracle `net` from a URL to
the response body (`none` models an error status, on which
`raise_for_status` raises before the target file is even opened).  The
returned `Nat` counts the network requests performed.  The chunked
streaming write is modelled as writing the whole body: the chunks
concatenate to the body and empty chunks are skipped without effect. -/
def get_book (d : BooksDownloader) (net : Str → Option Bytes) (fs : FS)
    (b : Book) : FS × GetResult × Nat :=
  if FS.isfile fs (os_path_join d.folder b.file_name) && !d.overwrite then
    (fs, .skipped, 0)
  else
    match net b.download_url with
    | none => (fs, .httpError, 1)
    | some content =>
      (FS.write fs (os_path_join d.folder b.file_name) content, .downloaded, 1)

/-- `BooksDownloader.flush_unfinished_book`: `os.remove` the book's target
file.  `none` models the `FileNotFoundError` raised when the file does not
exist (`os.remove` performs no existence check of its own). -/
def flush_unfinished_book (d : BooksDownloader) (fs : FS) (b : Book) :
    Option FS :=
  if FS.isfile fs (os_path_join d.folder b.file_name) then
    some (FS.erase fs (os_path_join d.folder b.file_name))
  else none

/-- How a run of the driver ends. -/
inductive RunOutcome
  | finished
  | forcedExit (msg : Str)
  | raised (e : PyError)
deriving DecidableEq

/-- Process exit code for each outcome: normal completion exits 0;
`exit(msg)` after an interrupt and an uncaught exception both exit
non-zero (Python uses 1 for both). -/
def exitSignal : RunOutcome → Nat
  | .finished => 0
  | .forcedExit _ => 1
  | .raised _ => 1

/-- The filesystem state reachable when a `KeyboardInterrupt` arrives while
`get_book d net fs b` is streaming its response body into the target file:
the skip check must have failed, the response must have been successful
(`raise_for_status` passed), and some prefix `pb` of the body has been
written.  `none` means no such in-flight interrupt is possible at this
call. -/
def inFlightInterrupt (d : BooksDownloader) (net : Str → Option Bytes)
    (fs : FS) (b : Book) (pb : Bytes) : Option FS :=
  if FS.isfile fs (os_path_join d.folder b.file_name) && !d.overwrite then none
  else
    match net b.download_url with
    | none => none
    | some content =>
      if pb.isPrefixOf content then
        some (FS.write fs (os_path_join d.folder b.file_name) pb)
      else none

/-- The inner loop of `main` over the books of the pages, with the pages'
book lists concatenated (the nested page/book loop performs exactly this
sequence of `get_book` calls).  `intr = some (k, pb)` schedules a user
interrupt during the in-flight download of the k-th remaining book, after
the prefix `pb` of its body has been written; when that interrupt is not
feasible there (the book is skipped or its request fails) the schedule is
dropped and the run continues uninterrupted, mirroring that no download is
in flight to interrupt.  On an interrupt the `except KeyboardInterrupt`
handler runs `flush_unfinished_book` and then `exit("(!) Exit forced")`;
an `HTTPError` from `raise_for_status` is not caught and propagates. -/
def runBooks (d : BooksDownloader) (net : Str → Option Bytes) :
    Option (Nat × Bytes) → FS → List Book → FS × RunOutcome × Option (Nat × Bytes)
  | intr, fs, [] => (fs, .finished, intr)
  | some (0, pb), fs, b :: rest =>
    match inFlightInterrupt d net fs b pb with
    | some fs1 =>
      match flush_unfinished_book d fs1 b with
      | some fs2 => (fs2, .forcedExit (("(!) Exit forced").toList), none)
      | none =>
        (fs1, .raised (.fileNotFound (os_path_join d.folder b.file_name)), none)
    | none =>
      match get_book d net fs b with
      | (fs1, .httpError, _) => (fs1, .raised .httpError, none)
      | (fs1, _, _) => runBooks d net none fs1 rest
  | some (k + 1, pb), fs, b :: rest =>
    match get_book d net fs b with
    | (fs1, .httpError, _) => (fs1, .raised .httpError, some (k + 1, pb))
    | (fs1, _, _) => runBooks d net (some (k, pb)) fs1 rest
  | none, fs, b :: rest =>
    match get_book d net fs b with
    | (fs1, .httpError, _) => (fs1, .raised .httpError, none)
    | (fs1, _, _) => runBooks d net none fs1 rest

/-! ## Page fetching and driver model -/

/-- A parsed listing page, abstracted to what the script reads from it:
the text and href of every `<a class="title">` anchor, in document order
(`BeautifulSoup(...).find_all("a", class "title")`). -/
structure Soup where
  titleAnchors : List (Str × Str)
deriving DecidableEq

/-- An HTTP response to a listing-page request: the status code, and the
parse of its body. -/
structure HttpResponse where
  status_code : Nat
  soup : Soup
deriving DecidableEq

/-- `get_page`, with HTTP as an oracle from page numbers to responses.  On
status 200 it returns the parsed document.  On any other status the
source's failure print interpolates the local variable `page`, which is
assigned only inside the 200 branch, so the call raises
`UnboundLocalError` — it neither prints its diagnostic nor returns
`None`. -/
def get_page (http : Nat → HttpResponse) (number : Nat) :
    Except PyError Soup :=
  let response := http number
  if response.status_code = 200 then
    .ok response.soup
  else
    .error (.unboundLocal (("page").toList))

/-- `get_books_from_page`: one `Book` per title anchor, in page order. -/
def get_books_from_page (page : Soup) (file_format : Formatter) : List Book :=
  page.titleAnchors.map (fun item => Book.make item.1 item.2 file_format)

/-- The page loop of `main` over the given page numbers: fetch, extract,
then run the downloader over the page's books.  An exception from
`get_page` (or from the book loop) is not caught in `main` and aborts the
whole run; a forced exit ends the process at once. -/
def pageLoop (http : Nat → HttpResponse) (d : BooksDownloader)
    (net : Str → Option Bytes) (fmt : Formatter) :
    Option (Nat × Bytes) → FS → List Nat → FS × RunOutcome
  | _, fs, [] => (fs, .finished)
  | intr, fs, n :: rest =>
    match get_page http n with
    | .error e => (fs, .raised e)
    | .ok soup =>
      match runBooks d net intr fs (get_books_from_page soup fmt) with
      | (fs1, .finished, intr1) => pageLoop http d net fmt intr1 fs1 rest
      | (fs1, o, _) => (fs1, o)

/-- `main` with its hard-coded configuration: folder `"books"`, no
overwrite, pdf format, inclusive page range 1..24. -/
def mainRun (http : Nat → HttpResponse) (net : Str → Option Bytes)
    (intr : Option (Nat × Bytes)) : FS × RunOutcome :=
  pageLoop http ⟨("books").toList, false⟩ net Formats.pdf intr []
    (List.range' 1 24)

/-! ## Lemmas about the replace scan -/

theorem replAux_skip (pat rep : Str) : ∀ (s : Str) (k : Nat),
    replAux pat rep k s = replAux pat rep 0 (s.drop k) := by
  intro s
  induction s with
  | nil => intro k; cases k <;> rfl
  | cons c rest ih =>
    intro k
    cases k with
    | zero => rfl
    | succ k => simpa [replAux] using ih k

theorem countAux_skip (pat : Str) : ∀ (s : Str) (k : Nat),
    countAux pat k s = countAux pat 0 (s.drop k) := by
  intro s
  induction s with
  | nil => intro k; cases k <;> rfl
  | cons c rest ih =>
    intro k
    cases k with
    | zero => rfl
    | succ k => simpa [countAux] using ih k

theorem replace_of_countOcc_zero (pat rep : Str) : ∀ s : Str,
    countOcc pat s = 0 → replaceList pat rep s = s := by
  intro s
  induction s with
  | nil => intro; rfl
  | cons c rest ih =>
    intro h
    cases hp : pat.isPrefixOf (c :: rest) with
    | true => simp [countOcc, countAux, hp] at h
    | false =>
      simp only [countOcc, countAux, hp, Bool.false_eq_true, if_false] at h
      simp only [replaceList, replAux, hp, Bool.false_eq_true, if_false]
      exact congrArg (c :: ·) (ih h)

theorem countOcc_succ_decomp (pat rep : Str) (hpat : pat ≠ []) :
    ∀ (s : Str) (n : Nat), countOcc pat s = n + 1 →
    ∃ pre post, s = pre ++ pat ++ post ∧
      replaceList pat rep s = pre ++ rep ++ replaceList pat rep post ∧
      countOcc pat post = n := by
  intro s
  induction s with
  | nil => intro n h; simp [countOcc, countAux] at h
  | cons c rest ih =>
    intro n h
    cases hp : pat.isPrefixOf (c :: rest) with
    | true =>
      have hpre : pat <+: (c :: rest) := List.isPrefixOf_iff_prefix.mp hp
      obtain ⟨t, ht⟩ := hpre
      obtain ⟨p, ps, rfl⟩ : ∃ p ps, pat = p :: ps := by
        cases pat with
        | nil => exact absurd rfl hpat
        | cons p ps => exact ⟨p, ps, rfl⟩
      have hc : p = c ∧ rest = ps ++ t := by
        have := ht
        simp only [List.cons_append] at this
        exact ⟨(List.cons.injEq _ _ _ _ ▸ this).1, ((List.cons.injEq _ _ _ _ ▸ this).2).symm⟩
      obtain ⟨rfl, hrest⟩ := hc
      have hdrop : rest.drop ((p :: ps).length - 1) = t := by
        rw [hrest]
        simp [List.drop_left ps t]
      refine ⟨[], t, ?_, ?_, ?_⟩
      · simpa using ht.symm
      · simp only [replaceList, replAux, hp, if_true, List.nil_append]
        rw [replAux_skip, hdrop]
      · have hcount : countOcc (p :: ps) (p :: rest) = 1 + countOcc (p :: ps) t := by
          simp only [countOcc, countAux, hp, if_true]
          rw [countAux_skip, hdrop]
        rw [hcount] at h
        omega
    | false =>
      have h' : countOcc pat rest = n + 1 := by
        simpa only [countOcc, countAux, hp, Bool.false_eq_true, if_false] using h
      obtain ⟨pre, post, hs, hr, hc⟩ := ih n h'
      refine ⟨c :: pre, post, by simp [hs], ?_, hc⟩
      simp only [replaceList, replAux, hp, Bool.false_eq_true, if_false]
      simp only [replaceList] at hr
      simp [hr]

/-! ## Lemmas about stripping and title cleaning -/

theorem dropWhile_all_append (p : Char → Bool) :
    ∀ (ws t : Str), (∀ c ∈ ws, p c = true) →
    (ws ++ t).dropWhile p = t.dropWhile p := by
  intro ws
  induction ws with
  | nil => intro t _; rfl
  | cons c ws ih =>
    intro t hws
    have hc : p c = true := hws c (by simp)
    simp only [List.cons_append, List.dropWhile_cons, hc, if_true]
    exact ih t (fun x hx => hws x (by simp [hx]))

theorem dropWhile_append_of_ne_nil (p : Char → Bool) :
    ∀ (u v : Str), u.dropWhile p ≠ [] →
    (u ++ v).dropWhile p = u.dropWhile p ++ v := by
  intro u
  induction u with
  | nil => intro v h; exact absurd rfl h
  | cons c u ih =>
    intro v h
    cases hc : p c with
    | true =>
      simp only [List.dropWhile_cons, hc, if_true] at h
      simp only [List.cons_append, List.dropWhile_cons, hc, if_true]
      exact ih v h
    | false =>
      simp [List.dropWhile_cons, hc]

theorem stripList_pad_left (ws t : Str) (hws : ∀ c ∈ ws, isPySpace c = true) :
    stripList (ws ++ t) = stripList t := by
  unfold stripList
  rw [dropWhile_all_append _ ws t hws]

theorem stripList_pad_right (t ws : Str) (hws : ∀ c ∈ ws, isPySpace c = true) :
    stripList (t ++ ws) = stripList t := by
  unfold stripList
  cases hA : t.dropWhile isPySpace with
  | nil =>
    have hall : ∀ c ∈ t ++ ws, isPySpace c = true := by
      intro c hc
      rcases List.mem_append.mp hc with h | h
      · exact List.dropWhile_eq_nil_iff.mp hA c h
      · exact hws c h
    rw [List.dropWhile_eq_nil_iff.mpr hall]
  | cons a A =>
    have hne : t.dropWhile isPySpace ≠ [] := by rw [hA]; simp
    rw [dropWhile_append_of_ne_nil _ t ws hne, hA]
    have hrev : ∀ c ∈ ws.reverse, isPySpace c = true := by
      intro c hc; exact hws c (List.mem_reverse.mp hc)
    rw [List.reverse_append, dropWhile_all_append _ ws.reverse (a :: A).reverse hrev]

theorem mem_replace_single (c : Char) : ∀ (s : Str) (x : Char),
    x ∈ replaceList [c] [] s → x ∈ s ∧ x ≠ c := by
  intro s
  induction s with
  | nil => intro x hx; cases hx
  | cons a rest ih =>
    intro x hx
    cases hp : [c].isPrefixOf (a :: rest) with
    | true =>
      have hca : c = a := by
        have := List.isPrefixOf_iff_prefix.mp hp
        obtain ⟨u, hu⟩ := this
        exact (List.cons.injEq _ _ _ _ ▸ hu).1
      simp only [replaceList, replAux, hp, if_true, List.length_cons,
        List.length_nil, List.nil_append] at hx
      have := ih x hx
      exact ⟨by simp [this.1], this.2⟩
    | false =>
      have hca : ¬ c = a := by
        intro hc
        subst hc
        simp [List.isPrefixOf] at hp
      simp only [replaceList, replAux, hp, Bool.false_eq_true, if_false,
        List.mem_cons] at hx
      rcases hx with rfl | hx
      · exact ⟨by simp, fun h => hca h.symm⟩
      · have := ih x hx
        exact ⟨by simp [this.1], this.2⟩

theorem replace_single_of_not_mem (c : Char) : ∀ s : Str,
    c ∉ s → replaceList [c] [] s = s := by
  intro s
  induction s with
  | nil => intro; rfl
  | cons a rest ih =>
    intro h
    have hca : ¬ c = a := fun hc => h (by simp [hc])
    have hp : [c].isPrefixOf (a :: rest) = false := by
      simp [List.isPrefixOf, hca]
    simp only [replaceList, replAux, hp, Bool.false_eq_true, if_false]
    have : c ∉ rest := fun hc => h (by simp [hc])
    exact congrArg (a :: ·) (ih this)

theorem mem_foldl_removals : ∀ (l : Str) (acc : Str) (x : Char),
    x ∈ List.foldl (fun t c => replaceList [c] [] t) acc l →
    x ∈ acc ∧ x ∉ l := by
  intro l
  induction l with
  | nil => intro acc x hx; exact ⟨hx, by simp⟩
  | cons c l ih =>
    intro acc x hx
    simp only [List.foldl_cons] at hx
    obtain ⟨hacc, hnl⟩ := ih _ x hx
    obtain ⟨hmem, hne⟩ := mem_replace_single c acc x hacc
    exact ⟨hmem, by simp [hne, hnl]⟩

theorem foldl_removals_of_disjoint : ∀ (l : Str) (acc : Str),
    (∀ c ∈ l, c ∉ acc) →
    List.foldl (fun t c => replaceList [c] [] t) acc l = acc := by
  intro l
  induction l with
  | nil => intro acc _; rfl
  | cons c l ih =>
    intro acc h
    simp only [List.foldl_cons]
    rw [replace_single_of_not_mem c acc (h c (by simp))]
    exact ih acc (fun x hx => h x (by simp [hx]))

theorem clean_title_no_bad (t : Str) :
    ∀ x ∈ clean_title t, x ∉ windows_bad_chars := by
  intro x hx
  exact (mem_foldl_removals windows_bad_chars (stripList t) x hx).2

/-! ## Filesystem lemmas -/

theorem FS.lookup_erase_self (p : Str) : ∀ fs : FS,
    FS.lookup (FS.erase fs p) p = none := by
  intro fs
  induction fs with
  | nil => rfl
  | cons e rest ih =>
    by_cases he : e.1 = p
    · simpa [FS.erase, he] using ih
    · simpa [FS.erase, FS.lookup, he] using ih

theorem FS.lookup_erase_ne (p q : Str) (hqp : q ≠ p) : ∀ fs : FS,
    FS.lookup (FS.erase fs p) q = FS.lookup fs q := by
  have hpq : ¬ p = q := fun h => hqp h.symm
  intro fs
  induction fs with
  | nil => rfl
  | cons e rest ih =>
    obtain ⟨r, bb⟩ := e
    by_cases he : r = p
    · subst he
      simpa [FS.erase, FS.lookup, hpq] using ih
    · by_cases heq : r = q
      · subst heq
        simp [FS.erase, FS.lookup, he]
      · simpa [FS.erase, FS.lookup, he, heq] using ih

theorem FS.lookup_write_self (fs : FS) (p : Str) (b : Bytes) :
    FS.lookup (FS.write fs p b) p = some b := by
  simp [FS.write, FS.lookup]

theorem FS.lookup_write_ne (fs : FS) (p q : Str) (b : Bytes) (hqp : q ≠ p) :
    FS.lookup (FS.write fs p b) q = FS.lookup fs q := by
  have : ¬ p = q := fun h => hqp h.symm
  simp [FS.write, FS.lookup, this, FS.lookup_erase_ne p q hqp]

/-! ## Downloader lemmas -/

theorem get_book_skip (d : BooksDownloader) (net : Str → Option Bytes)
    (fs : FS) (b : Book) (ho : d.overwrite = false)
    (hf : FS.isfile fs (os_path_join d.folder b.file_name) = true) :
    get_book d net fs b = (fs, .skipped, 0) := by
  simp [get_book, hf, ho]

theorem inFlightInterrupt_some (d : BooksDownloader) (net : Str → Option Bytes)
    (fs : FS) (b : Book) (pb : Bytes) (fs' : FS)
    (h : inFlightInterrupt d net fs b pb = some fs') :
    (FS.isfile fs (os_path_join d.folder b.file_name) && !d.overwrite) = false ∧
    fs' = FS.write fs (os_path_join d.folder b.file_name) pb := by
  unfold inFlightInterrupt at h
  by_cases hcond : (FS.isfile fs (os_path_join d.folder b.file_name) && !d.overwrite) = true
  · rw [if_pos hcond] at h
    cases h
  · rw [if_neg hcond] at h
    refine ⟨by simpa using hcond, ?_⟩
    split at h
    · cases h
    · split at h
      · exact (Option.some.inj h).symm
      · cases h

/-! ## Driver lemmas -/

theorem runBooks_interrupt (d : BooksDownloader) (net : Str → Option Bytes) :
    ∀ (k : Nat) (books : List Book) (b : Book) (fs0 fsB fsI : FS) (pb : Bytes),
    books[k]? = some b →
    runBooks d net none fs0 (books.take k) = (fsB, .finished, none) →
    inFlightInterrupt d net fsB b pb = some fsI →
    runBooks d net (some (k, pb)) fs0 books =
      (FS.erase fsI (os_path_join d.folder b.file_name),
       .forcedExit (("(!) Exit forced").toList), none) := by
  intro k
  induction k with
  | zero =>
    intro books b fs0 fsB fsI pb hk hpre hfeas
    cases books with
    | nil => simp at hk
    | cons b0 rest =>
      have hb : b0 = b := by simpa using hk
      subst hb
      rw [List.take_zero] at hpre
      have h1 : fs0 = fsB := by
        simpa [runBooks] using hpre
      subst h1
      obtain ⟨hcond, rfl⟩ := inFlightInterrupt_some d net fs0 b0 pb fsI hfeas
      have hisf : FS.isfile
          (FS.write fs0 (os_path_join d.folder b0.file_name) pb)
          (os_path_join d.folder b0.file_name) = true := by
        simp [FS.isfile, FS.lookup_write_self]
      simp [runBooks, hfeas, flush_unfinished_book, hisf]
  | succ k ih =>
    intro books b fs0 fsB fsI pb hk hpre hfeas
    cases books with
    | nil => simp at hk
    | cons b0 rest =>
      have hk' : rest[k]? = some b := by simpa using hk
      rw [List.take_succ_cons] at hpre
      rcases hgb : get_book d net fs0 b0 with ⟨fs1, r, m⟩
      cases r with
      | httpError =>
        rw [show runBooks d net none fs0 (b0 :: rest.take k)
              = (fs1, .raised .httpError, none) from by simp [runBooks, hgb]]
          at hpre
        simp at hpre
      | skipped =>
        have hstep : runBooks d net none fs0 (b0 :: rest.take k)
            = runBooks d net none fs1 (rest.take k) := by
          simp [runBooks, hgb]
        rw [hstep] at hpre
        have hrec := ih rest b fs1 fsB fsI pb hk' hpre hfeas
        rw [show runBooks d net (some (k + 1, pb)) fs0 (b0 :: rest)
              = runBooks d net (some (k, pb)) fs1 rest from by simp [runBooks, hgb]]
        exact hrec
      | downloaded =>
        have hstep : runBooks d net none fs0 (b0 :: rest.take k)
            = runBooks d net none fs1 (rest.take k) := by
          simp [runBooks, hgb]
        rw [hstep] at hpre
        have hrec := ih rest b fs1 fsB fsI pb hk' hpre hfeas
        rw [show runBooks d net (some (k + 1, pb)) fs0 (b0 :: rest)
              = runBooks d net (some (k, pb)) fs1 rest from by simp [runBooks, hgb]]
        exact hrec

theorem pageLoop_stops (http : Nat → HttpResponse) (d : BooksDownloader)
    (net : Str → Option Bytes) (fmt : Formatter) (intr : Option (Nat × Bytes))
    (fs fs1 : FS) (n : Nat) (rest : List Nat) (msg : Str) (soup : Soup)
    (intr1 : Option (Nat × Bytes))
    (hgp : get_page http n = .ok soup)
    (hrb : runBooks d net intr fs (get_books_from_page soup fmt)
            = (fs1, .forcedExit msg, intr1)) :
    pageLoop http d net fmt intr fs (n :: rest) = (fs1, .forcedExit msg) := by
  simp [pageLoop, hgp, hrb]

/-! ## Concrete fixtures used by witnesses and bug evaluations -/

/-- An HTTP oracle on which every listing-page request fails with 404. -/
def httpAll404 : Nat → HttpResponse := fun _ => ⟨404, ⟨[]⟩⟩

/-- A download oracle on which every request fails. -/
def netNone : Str → Option Bytes := fun _ => none

/-- A download oracle on which every request succeeds with body `[7,7,7]`. -/
def netSeven : Str → Option Bytes := fun _ => some [7, 7, 7]

/-- The downloader as `main` configures it: folder `"books"`, no overwrite. -/
def d_main : BooksDownloader := ⟨("books").toList, false⟩

/-- A sample book with title `A`. -/
def bookA : Book := Book.make (("A").toList) (("/book/1").toList) Formats.pdf

/-- A sample book with title `B`. -/
def bookB : Book := Book.make (("B").toList) (("/book/2").toList) Formats.pdf

/-- The filesystem after `bookA` has been downloaded. -/
def fsB_w : FS := [((("books/A.pdf").toList), [7, 7, 7])]

/-- The filesystem after an interrupted download of `bookB` has written the
partial body `[7]`. -/
def fsI_w : FS := FS.write fsB_w (("books/B.pdf").toList) [7]

/-! ## Claims -/

/-- Claim C1, counterexample: with href `"book/abc123"` and the pdf format,
`download_url` is NOT `BASE_URL ++ "/content/pdf/abc123.pdf"`: `BASE_URL`
has no trailing slash and the replaced href contributes no leading slash,
so no `/` separates them. -/
theorem claim_C1_counterexample :
    (Book.make [] (("book/abc123").toList) Formats.pdf).download_url
      ≠ ("https://link.springer.com/content/pdf/abc123.pdf").toList := by
  decide

/-- Claim C1 (amended): for every href containing the marker segment
`"book/"` exactly once, `download_url` replaces exactly that occurrence
with the formatter's url modifier and appends `"."` plus the extension,
all prefixed by the base URL; in particular, for the site-relative href
`"/book/abc123"` (hrefs scraped from the listing start with a slash) and
the pdf format, the result is the base URL followed by
`/content/pdf/abc123.pdf`. -/
theorem claim_C1_amended :
    (∀ (title href : Str) (f : Formatter), countOcc marker href = 1 →
      ∃ pre post, href = pre ++ marker ++ post ∧
        (Book.make title href f).download_url
          = BASE_URL ++ pre ++ f.url_modifier ++ post ++ '.' :: f.extension) ∧
    (Book.make [] (("/book/abc123").toList) Formats.pdf).download_url
      = ("https://link.springer.com/content/pdf/abc123.pdf").toList := by
  constructor
  · intro title href f h1
    have hpat : marker ≠ [] := by decide
    obtain ⟨pre, post, hs, hr, hc⟩ :=
      countOcc_succ_decomp marker f.url_modifier hpat href 0 h1
    refine ⟨pre, post, hs, ?_⟩
    rw [replace_of_countOcc_zero marker f.url_modifier post hc] at hr
    simp [Book.download_url, Book.make, hr, List.append_assoc]
  · decide

/-- Witness for the amended claim C1 at href `"book/xyz"`. -/
theorem claim_C1_amended_witness :
    countOcc marker (("book/xyz").toList) = 1 ∧
    (∃ pre post, (("book/xyz").toList) = pre ++ marker ++ post ∧
      (Book.make [] (("book/xyz").toList) Formats.pdf).download_url
        = BASE_URL ++ pre ++ Formats.pdf.url_modifier ++ post
            ++ '.' :: Formats.pdf.extension) :=
  ⟨by decide, claim_C1_amended.1 [] (("book/xyz").toList) Formats.pdf (by decide)⟩

/-- Claim C2, bug evaluation: on a non-200 status, `get_page` does not
print a diagnostic and return no document — it raises `UnboundLocalError`,
because its failure print interpolates the local variable `page`, which is
assigned only in the 200 branch. -/
theorem claim_C2_bug_eval :
    get_page httpAll404 1 = .error (.unboundLocal (("page").toList)) := rfl

/-- Claim C3, bug evaluation: when the fetch of page 3 fails, the driver
loop does not skip the page and continue to page 4 — the uncaught
`UnboundLocalError` from `get_page` aborts the whole run. -/
theorem claim_C3_bug_eval :
    pageLoop httpAll404 d_main netNone Formats.pdf none [] [3, 4]
      = ([], .raised (.unboundLocal (("page").toList))) := rfl

/-- Claim C4, counterexample to idempotence: the sanitizer is not
idempotent.  For the title `"\ a"` the first sanitization strips nothing
and removes the backslash, leaving `" a"`, whose leading space a second
sanitization strips. -/
theorem claim_C4_counterexample :
    clean_title (clean_title (("\\ a").toList)) ≠ clean_title (("\\ a").toList) := by
  decide

/-- Claim C4 (amended): for every title string the sanitized title contains
none of the characters in the fixed unsafe set; and the sanitizer is a
no-op on a title that contains none of them and carries no leading or
trailing whitespace.  (Full idempotence fails: removing an unsafe character
can expose leading or trailing whitespace, which only the next
sanitization strips.) -/
theorem claim_C4_amended :
    (∀ t : Str, ∀ x ∈ clean_title t, x ∉ windows_bad_chars) ∧
    (∀ t : Str, (∀ x ∈ t, x ∉ windows_bad_chars) → stripList t = t →
      clean_title t = t) := by
  constructor
  · exact fun t => clean_title_no_bad t
  · intro t hbad hstrip
    unfold clean_title
    rw [hstrip]
    exact foldl_removals_of_disjoint windows_bad_chars t
      (fun c hc hct => hbad c hct hc)

/-- Witness for the amended claim C4 at titles `"a*b"` and `"ab"`. -/
theorem claim_C4_amended_witness :
    ('a' ∈ clean_title (("a*b").toList) ∧ 'a' ∉ windows_bad_chars) ∧
    ((∀ x ∈ (("ab").toList), x ∉ windows_bad_chars) ∧
      stripList (("ab").toList) = ("ab").toList ∧
      clean_title (("ab").toList) = ("ab").toList) :=
  ⟨⟨by decide, claim_C4_amended.1 (("a*b").toList) 'a' (by decide)⟩,
   ⟨by decide, by decide, claim_C4_amended.2 (("ab").toList) (by decide) (by decide)⟩⟩

/-- Claim C5: when a user interrupt occurs during the in-flight download of
the k-th book (overwrite disabled, as `main` configures it), the run ends
then and there with the handler's forced non-zero exit and its
human-readable message; the interrupted book's partial file is deleted;
every other path — in particular every file of a book completed before the
interrupt — holds exactly what it held just before the interrupted attempt
(and the interrupted book's path held no file then, so no completed book
loses its file); and the page loop returns at once, abandoning all
remaining books and pages. -/
theorem claim_C5 (d : BooksDownloader) (net : Str → Option Bytes)
    (fs0 fsB fsI : FS) (books : List Book) (k : Nat) (b : Book) (pb : Bytes)
    (ho : d.overwrite = false)
    (hk : books[k]? = some b)
    (hpre : runBooks d net none fs0 (books.take k) = (fsB, .finished, none))
    (hfeas : inFlightInterrupt d net fsB b pb = some fsI) :
    runBooks d net (some (k, pb)) fs0 books
      = (FS.erase fsI (os_path_join d.folder b.file_name),
         .forcedExit (("(!) Exit forced").toList), none) ∧
    FS.lookup (FS.erase fsI (os_path_join d.folder b.file_name))
        (os_path_join d.folder b.file_name) = none ∧
    (∀ q : Str, q ≠ os_path_join d.folder b.file_name →
      FS.lookup (FS.erase fsI (os_path_join d.folder b.file_name)) q
        = FS.lookup fsB q) ∧
    FS.lookup fsB (os_path_join d.folder b.file_name) = none ∧
    exitSignal (.forcedExit (("(!) Exit forced").toList)) ≠ 0 ∧
    (∀ (http : Nat → HttpResponse) (fmt : Formatter) (n : Nat)
        (rest : List Nat) (soup : Soup),
      get_page http n = .ok soup →
      get_books_from_page soup fmt = books →
      pageLoop http d net fmt (some (k, pb)) fs0 (n :: rest)
        = (FS.erase fsI (os_path_join d.folder b.file_name),
           .forcedExit (("(!) Exit forced").toList))) := by
  obtain ⟨hcond, rfl⟩ := inFlightInterrupt_some d net fsB b pb fsI hfeas
  refine ⟨?_, ?_, ?_, ?_, ?_, ?_⟩
  · exact runBooks_interrupt d net k books b fs0 fsB _ pb hk hpre hfeas
  · exact FS.lookup_erase_self _ _
  · intro q hq
    rw [FS.lookup_erase_ne _ q hq _, FS.lookup_write_ne fsB _ q pb hq]
  · have hf : FS.isfile fsB (os_path_join d.folder b.file_name) = false := by
      rw [ho] at hcond
      simpa using hcond
    cases hl : FS.lookup fsB (os_path_join d.folder b.file_name) with
    | none => rfl
    | some v =>
      rw [FS.isfile, hl] at hf
      cases hf
  · simp [exitSignal]
  · intro http fmt n rest soup hgp hbooks
    refine pageLoop_stops http d net fmt (some (k, pb)) fs0 _ n rest _ soup
      none hgp ?_
    rw [hbooks]
    exact runBooks_interrupt d net k books b fs0 fsB _ pb hk hpre hfeas

/-- Witness for claim C5: two books, the interrupt hits book `B` (index 1)
after `bookA`'s download completed. -/
theorem claim_C5_witness :
    d_main.overwrite = false ∧
    ([bookA, bookB])[1]? = some bookB ∧
    runBooks d_main netSeven none [] ([bookA, bookB].take 1)
      = (fsB_w, .finished, none) ∧
    inFlightInterrupt d_main netSeven fsB_w bookB [7] = some fsI_w ∧
    runBooks d_main netSeven (some (1, [7])) [] [bookA, bookB]
      = (FS.erase fsI_w (os_path_join d_main.folder bookB.file_name),
         .forcedExit (("(!) Exit forced").toList), none) :=
  ⟨rfl, rfl, by decide, by decide,
   (claim_C5 d_main netSeven [] fsB_w fsI_w [bookA, bookB] 1 bookB [7]
     rfl rfl (by decide) (by decide)).1⟩

/-- Claim C6: with overwrite disabled and the target file already present,
`get_book` only skips: it performs zero network requests and returns the
filesystem unchanged (so the target's bytes and every other file are
untouched). -/
theorem claim_C6 (d : BooksDownloader) (net : Str → Option Bytes) (fs : FS)
    (b : Book) (ho : d.overwrite = false)
    (hf : FS.isfile fs (os_path_join d.folder b.file_name) = true) :
    get_book d net fs b = (fs, .skipped, 0) := by
  simp [get_book, hf, ho]

/-- Witness for claim C6: `bookA` is already in the folder. -/
theorem claim_C6_witness :
    d_main.overwrite = false ∧
    FS.isfile fsB_w (os_path_join d_main.folder bookA.file_name) = true ∧
    get_book d_main netSeven fsB_w bookA = (fsB_w, .skipped, 0) :=
  ⟨rfl, by decide, claim_C6 d_main netSeven fsB_w bookA rfl (by decide)⟩

/-- Claim C7: for every book (whose stored title is the sanitized title)
and either supported format, `file_name` is exactly the stored title,
one dot, and the format's extension. -/
theorem claim_C7 (title href : Str) :
    (Book.make title href Formats.pdf).file_name
      = (Book.make title href Formats.pdf).title
          ++ '.' :: Formats.pdf.extension ∧
    (Book.make title href Formats.epub).file_name
      = (Book.make title href Formats.epub).title
          ++ '.' :: Formats.epub.extension :=
  ⟨rfl, rfl⟩

/-- Claim C8: `flush_unfinished_book` on an existing target removes exactly
that one file and leaves every other path unchanged; on a missing target
it fails (models `os.remove` raising `FileNotFoundError`). -/
theorem claim_C8 (d : BooksDownloader) (fs : FS) (b : Book) :
    (FS.isfile fs (os_path_join d.folder b.file_name) = true →
      flush_unfinished_book d fs b
        = some (FS.erase fs (os_path_join d.folder b.file_name)) ∧
      FS.lookup (FS.erase fs (os_path_join d.folder b.file_name))
          (os_path_join d.folder b.file_name) = none ∧
      (∀ q : Str, q ≠ os_path_join d.folder b.file_name →
        FS.lookup (FS.erase fs (os_path_join d.folder b.file_name)) q
          = FS.lookup fs q)) ∧
    (FS.isfile fs (os_path_join d.folder b.file_name) = false →
      flush_unfinished_book d fs b = none) := by
  constructor
  · intro hf
    refine ⟨by simp [flush_unfinished_book, hf], FS.lookup_erase_self _ _, ?_⟩
    intro q hq
    exact FS.lookup_erase_ne _ q hq fs
  · intro hf
    simp [flush_unfinished_book, hf]

/-- Witness for claim C8: the target exists for `bookA`, not for `bookB`. -/
theorem claim_C8_witness :
    (FS.isfile fsB_w (os_path_join d_main.folder bookA.file_name) = true ∧
      flush_unfinished_book d_main fsB_w bookA
        = some (FS.erase fsB_w (os_path_join d_main.folder bookA.file_name))) ∧
    (FS.isfile fsB_w (os_path_join d_main.folder bookB.file_name) = false ∧
      flush_unfinished_book d_main fsB_w bookB = none) :=
  ⟨⟨by decide, ((claim_C8 d_main fsB_w bookA).1 (by decide)).1⟩,
   ⟨by decide, (claim_C8 d_main fsB_w bookB).2 (by decide)⟩⟩

/-- Claim C9: the constructor strips the title before removing unsafe
characters, so the stored title is invariant under any all-whitespace
padding of the input (it never carries the input's leading or trailing
whitespace); and the order is strip-first: for input `"\ a"` the stored
title is `" a"` (the space survives because stripping happened before the
backslash was removed — removal-first would store `"a"`). -/
theorem claim_C9 :
    (∀ (ws1 ws2 t href : Str) (f : Formatter),
      (∀ c ∈ ws1, isPySpace c = true) → (∀ c ∈ ws2, isPySpace c = true) →
      (Book.make (ws1 ++ t ++ ws2) href f).title = (Book.make t href f).title) ∧
    (Book.make (("\\ a").toList) [] Formats.pdf).title = (" a").toList := by
  constructor
  · intro ws1 ws2 t href f h1 h2
    simp only [Book.make]
    unfold clean_title
    rw [show ws1 ++ t ++ ws2 = ws1 ++ (t ++ ws2) from by simp,
      stripList_pad_left ws1 (t ++ ws2) h1, stripList_pad_right t ws2 h2]
  · decide

/-- Witness for claim C9 with padding `"  "` and a newline. -/
theorem claim_C9_witness :
    (∀ c ∈ (("  ").toList), isPySpace c = true) ∧
    (∀ c ∈ (("\n").toList), isPySpace c = true) ∧
    (Book.make ((("  ").toList) ++ (("a b").toList) ++ (("\n").toList))
        [] Formats.pdf).title
      = (Book.make (("a b").toList) [] Formats.pdf).title :=
  ⟨by decide, by decide,
   claim_C9.1 (("  ").toList) (("\n").toList) (("a b").toList) [] Formats.pdf
     (by decide) (by decide)⟩

/-- Claim C10: when the marker `"book/"` occurs at least twice in the href,
`download_url` replaces not only the first occurrence: the href splits
around its first two occurrences, both are replaced by the url modifier,
and the remainder is itself processed by the same global replacement. -/
theorem claim_C10 (title href : Str) (f : Formatter)
    (h : 2 ≤ countOcc marker href) :
    ∃ pre mid post, href = pre ++ marker ++ mid ++ marker ++ post ∧
      (Book.make title href f).download_url
        = BASE_URL ++ pre ++ f.url_modifier ++ mid ++ f.url_modifier
            ++ replaceList marker f.url_modifier post ++ '.' :: f.extension := by
  have hpat : marker ≠ [] := by decide
  obtain ⟨n, hn⟩ : ∃ n, countOcc marker href = n + 2 :=
    ⟨countOcc marker href - 2, by omega⟩
  obtain ⟨pre, post1, hs1, hr1, hc1⟩ :=
    countOcc_succ_decomp marker f.url_modifier hpat href (n + 1) (by omega)
  obtain ⟨mid, post, hs2, hr2, hc2⟩ :=
    countOcc_succ_decomp marker f.url_modifier hpat post1 n hc1
  refine ⟨pre, mid, post, ?_, ?_⟩
  · rw [hs1, hs2]
    simp [List.append_assoc]
  · rw [hr2] at hr1
    simp [Book.download_url, Book.make, hr1, List.append_assoc]

/-- Witness for claim C10 at href `"book/xbook/y"`. -/
theorem claim_C10_witness :
    2 ≤ countOcc marker (("book/xbook/y").toList) ∧
    (∃ pre mid post,
      (("book/xbook/y").toList) = pre ++ marker ++ mid ++ marker ++ post ∧
      (Book.make [] (("book/xbook/y").toList) Formats.pdf).download_url
        = BASE_URL ++ pre ++ Formats.pdf.url_modifier ++ mid
            ++ Formats.pdf.url_modifier
            ++ replaceList marker Formats.pdf.url_modifier post
            ++ '.' :: Formats.pdf.extension) :=
  ⟨by decide, claim_C10 [] (("book/xbook/y").toList) Formats.pdf (by decide)⟩
